import Mathlib

set_option maxHeartbeats 1000000
set_option maxRecDepth 8000

/-!
Verification development for the MinecraftWorldSync repository.

The shallow embedding models the shared folder (the global index
`world_sync/mundos.json` plus the per-machine subtrees
`world_sync/<pc_id>/<world>/{control.json, minecraft_saves_data}`) and each
machine's local saves directory as association lists keyed by strings, and
translates the operations of `src/host_manager.py` and the directory diff of
`src/utils.py` into pure functions over that state.
-/

/-- Association-list lookup, standing for JSON-object field access and for
path lookup in a directory listing. -/
def akey? {α : Type} : List (String × α) → String → Option α
  | [], _ => none
  | (k, v) :: rest, key => if k = key then some v else akey? rest key

/-- Membership of a key, standing for a path-existence test or the Python
`in` operator on a listing. -/
def hasKey {α : Type} (l : List (String × α)) (key : String) : Bool :=
  (akey? l key).isSome

/-- Overwrite the binding of a key, or append it: the effect of writing a
file at a path, or of a Python dictionary assignment. -/
def upsert {α : Type} : List (String × α) → String → α → List (String × α)
  | [], key, v => [(key, v)]
  | (k, w) :: rest, key, v =>
    if k = key then (key, v) :: rest else (k, w) :: upsert rest key v

/-- Content and modification time of one regular file.  The byte size used by
`os.path.getsize` is the length of the content. -/
structure FileData where
  content : String
  mtime : Int
deriving DecidableEq

/-- A directory tree: the argument of `dir` is the listing, in `os.listdir`
order. -/
inductive FsTree : Type where
  | file : FileData → FsTree
  | dir : List (String × FsTree) → FsTree

/-- Result record of `compare_directories` (src/utils.py lines 161-171). -/
structure DiffResult where
  identical : Bool
  files_only_in_dir1 : List String
  files_only_in_dir2 : List String
  modified_files : List String
  dirs_only_in_dir1 : List String
  dirs_only_in_dir2 : List String
  has_important_changes : Bool
deriving DecidableEq

/-- The initial result value of `compare_directories`. -/
def emptyDiff : DiffResult :=
  { identical := true
    files_only_in_dir1 := []
    files_only_in_dir2 := []
    modified_files := []
    dirs_only_in_dir1 := []
    dirs_only_in_dir2 := []
    has_important_changes := false }

/-- Ignore list of `compare_directories` (src/utils.py lines 174-179). -/
def ignorePatterns : List String :=
  ["session.lock", ".DS_Store", "Thumbs.db", "*.tmp"]

/-- The nested `should_ignore` helper (src/utils.py lines 192-194): equality
against a pattern, or a suffix match when the pattern starts with `*`. -/
def should_ignore (name : String) : Bool :=
  ignorePatterns.any fun pat =>
    name = pat || (pat.startsWith "*" && name.endsWith (pat.drop 1))

/-- `os.path.join` for the relative paths recorded in the buckets. -/
def joinPath (a b : String) : String :=
  if a = "" then b else a ++ "/" ++ b

/-- Processing of one entry present only in dir1 (src/utils.py lines 213-226). -/
def only1Step (relPath : String) (acc : DiffResult) (e : String × FsTree) :
    DiffResult :=
  match e.2 with
  | .dir _ =>
    { acc with
        dirs_only_in_dir1 := acc.dirs_only_in_dir1 ++ [joinPath relPath e.1]
        identical := false
        has_important_changes := true }
  | .file _ =>
    if should_ignore e.1 then acc
    else
      { acc with
          files_only_in_dir1 := acc.files_only_in_dir1 ++ [joinPath relPath e.1]
          identical := false
          has_important_changes := true }

/-- Processing of one entry present only in dir2 (src/utils.py lines 229-242). -/
def only2Step (relPath : String) (acc : DiffResult) (e : String × FsTree) :
    DiffResult :=
  match e.2 with
  | .dir _ =>
    { acc with
        dirs_only_in_dir2 := acc.dirs_only_in_dir2 ++ [joinPath relPath e.1]
        identical := false
        has_important_changes := true }
  | .file _ =>
    if should_ignore e.1 then acc
    else
      { acc with
          files_only_in_dir2 := acc.files_only_in_dir2 ++ [joinPath relPath e.1]
          identical := false
          has_important_changes := true }

mutual

/-- The nested `compare_dirs` of src/utils.py (lines 197-273): entries only in
one listing are bucketed, then common entries are compared.  `now` is the
value of `time.time()`. -/
def compareDirs (now : Int) (es1 es2 : List (String × FsTree))
    (relPath : String) (acc : DiffResult) : DiffResult :=
  goCommon now es1 es2 relPath
    ((es2.filter fun e => !hasKey es1 e.1).foldl (only2Step relPath)
      ((es1.filter fun e => !hasKey es2 e.1).foldl (only1Step relPath) acc))
termination_by (sizeOf es1, 2)

/-- Iteration over the common entries of the two listings (the final loop of
`compare_dirs`, src/utils.py lines 245-273); entries of `l` whose name is not
in `es2` are left untouched by `commonStep`. -/
def goCommon (now : Int) (l es2 : List (String × FsTree)) (relPath : String)
    (acc : DiffResult) : DiffResult :=
  match l with
  | [] => acc
  | (n, t1) :: rest =>
    goCommon now rest es2 relPath (commonStep now es2 relPath n t1 acc)
termination_by (sizeOf l, 1)

/-- One common entry: recurse when both sides are directories, compare content
when both are files (ignored names skipped), and do nothing on a mixed
file/directory pair (src/utils.py lines 251-273). -/
def commonStep (now : Int) (es2 : List (String × FsTree)) (relPath n : String)
    (t1 : FsTree) (acc : DiffResult) : DiffResult :=
  match t1, akey? es2 n with
  | .dir ces1, some (.dir ces2) =>
    compareDirs now ces1 ces2 (joinPath relPath n) acc
  | .file f1, some (.file f2) =>
    if should_ignore n then acc
    else if f1.content = f2.content then acc
    else
      let acc1 : DiffResult :=
        { acc with
            modified_files := acc.modified_files ++ [joinPath relPath n]
            identical := false }
      if now - f1.mtime < 86400 || now - f2.mtime < 86400 ||
          ((f1.content.length : Int) - (f2.content.length : Int)).natAbs > 100
      then { acc1 with has_important_changes := true }
      else acc1
  | _, _ => acc
termination_by (sizeOf t1, 0)

end

/-- Top-level `compare_directories` (src/utils.py lines 147-278) applied to the
listings of two existing directories. -/
def compare_directories (es1 es2 : List (String × FsTree)) (now : Int) :
    DiffResult :=
  compareDirs now es1 es2 "" emptyDiff

mutual

/-- A tree is well formed when every listing has pairwise distinct entry
names, as a real directory listing does. -/
def wfTree : FsTree → Bool
  | .file _ => true
  | .dir es => wfEntries es

/-- Well-formedness of one listing: distinct names, well-formed children. -/
def wfEntries : List (String × FsTree) → Bool
  | [] => true
  | (n, t) :: rest => !hasKey rest n && wfTree t && wfEntries rest

end

mutual

/-- Remove every file entry whose name is on the ignore list, at every depth;
directory entries are kept whatever their name.  Two trees differ only in
ignored filenames exactly when their stripped forms coincide. -/
def stripTree : FsTree → FsTree
  | .file f => .file f
  | .dir es => .dir (stripEntries es)

/-- Listing-level form of `stripTree`. -/
def stripEntries : List (String × FsTree) → List (String × FsTree)
  | [] => []
  | (n, t) :: rest =>
    match t with
    | .file f =>
      if should_ignore n then stripEntries rest
      else (n, .file f) :: stripEntries rest
    | .dir _ => (n, stripTree t) :: stripEntries rest

end

/-- What a name bound to `t` in a listing becomes after stripping: an ignored
file vanishes, any other file survives, a directory is stripped inside. -/
def stripLookup (n : String) (t : FsTree) : Option FsTree :=
  match t with
  | .file f => if should_ignore n then none else some (.file f)
  | .dir c => some (.dir (stripEntries c))

mutual

/-- Two trees agree up to mixed-kind entries: equal content where both sides
are files, recursive agreement where both sides are directories, and no
constraint at all where one side is a file and the other a directory. -/
def agreeTree : FsTree → FsTree → Bool
  | .file f1, .file f2 => f1.content = f2.content
  | .dir es1, .dir es2 =>
    agreeEntries es1 es2 && es2.all fun e => hasKey es1 e.1
  | _, _ => true

/-- Every entry of the first listing has a counterpart of the same name in
the second, and the two agree up to mixed-kind entries. -/
def agreeEntries : List (String × FsTree) → List (String × FsTree) → Bool
  | [], _ => true
  | (n, t1) :: rest, es2 =>
    (match akey? es2 n with
     | none => false
     | some t2 => agreeTree t1 t2) && agreeEntries rest es2

end

/-- Two directory listings that differ only in mixed-kind (file versus
directory) entries of a common name. -/
def agreeDirs (es1 es2 : List (String × FsTree)) : Bool :=
  agreeEntries es1 es2 && es2.all fun e => hasKey es1 e.1

/-- A Pointer Entry of the Global Index `mundos.json`: one value of the
`mundos` mapping.  Fields are optional because they are read with `.get`. -/
structure PointerEntry where
  commit_id : Option String
  pc_id : Option String
  timestamp : Option String
  comment : Option String
deriving DecidableEq

/-- A Local Commit Record `control.json` (src/host_manager.py lines 146-152
and 184-189); `original_timestamp` is written only by `download_world`. -/
structure Control where
  commit_id : Option String
  base_commit : Option String
  comment : Option String
  timestamp : Option String
  original_timestamp : Option String
deriving DecidableEq

/-- Contents of `world_sync/<pc_id>/<world>/`: the optional `control.json`
and the optional `minecraft_saves_data` payload directory. -/
structure WorldSyncData where
  control : Option Control
  saves_data : Option FsTree

/-- An absent machine/world directory behaves as one with neither file. -/
def emptyWD : WorldSyncData := { control := none, saves_data := none }

/-- The shared folder: the parsed Global Index (the inner `mundos` mapping of
`mundos.json`) and the per-machine subtrees of `world_sync/`, keyed by the
directory names that `os.listdir(config.WORLD_SYNC_DIR)` reports. -/
structure SharedState where
  mundos : List (String × PointerEntry)
  machines : List (String × List (String × WorldSyncData))

/-- Listing of `world_sync/<pc_id>/`, empty when the directory is absent. -/
def machineWorlds (ms : List (String × List (String × WorldSyncData)))
    (pc : String) : List (String × WorldSyncData) :=
  (akey? ms pc).getD []

/-- Data stored for one machine and world, defaulting to nothing. -/
def worldData (ms : List (String × List (String × WorldSyncData)))
    (pc w : String) : WorldSyncData :=
  (akey? (machineWorlds ms pc) w).getD emptyWD

/-- Write into `world_sync/<pc_id>/<world>/`, creating missing directories as
`ensure_dir_exists` does. -/
def setWorldData (ms : List (String × List (String × WorldSyncData)))
    (pc w : String) (f : WorldSyncData → WorldSyncData) :
    List (String × List (String × WorldSyncData)) :=
  upsert ms pc (upsert (machineWorlds ms pc) w (f (worldData ms pc w)))

/-- Read `world_sync/<pc_id>/<world>/control.json` if it exists. -/
def control_of (sh : SharedState) (pc w : String) : Option Control :=
  (akey? sh.machines pc).bind fun ws => (akey? ws w).bind (·.control)

/-- Read the payload `world_sync/<pc_id>/<world>/minecraft_saves_data` if it
exists. -/
def saves_of (sh : SharedState) (pc w : String) : Option FsTree :=
  (akey? sh.machines pc).bind fun ws => (akey? ws w).bind (·.saves_data)

/-- One entry of the `conflicts` list of `check_world_status`; `pc_id` and
`pc_info` are present only on `parallel_commits` conflicts. -/
structure Conflict where
  type : String
  message : String
  pc_id : Option String
  pc_info : Option Control
deriving DecidableEq

/-- Result record of `check_world_status` (src/host_manager.py lines 48-55). -/
structure Status where
  exists_locally : Bool
  exists_in_sync : Bool
  has_latest_version : Bool
  latest_version_info : Option PointerEntry
  local_version_info : Option Control
  conflicts : List Conflict

/-- The `parallel_commits` conflict record emitted for a peer machine
(src/host_manager.py lines 99-104). -/
def parallelConflict (pc_id : String) (pcc : Control) : Conflict :=
  { type := "parallel_commits"
    message := "La PC " ++ pc_id ++
      " tiene una versión diferente basada en el mismo commit base"
    pc_id := some pc_id
    pc_info := some pcc }

/-- The peer loop of `check_world_status` (src/host_manager.py lines 86-104):
for every other listed machine holding a `control.json` of this world, emit a
`parallel_commits` conflict when base commits agree while commit id and
timestamp both differ.  When the calling machine had no `control.json`, the
name `local_control` is unbound at line 96 and Python raises
`UnboundLocalError` at the first such peer. -/
def parallel_conflicts (selfId world : String) (local_control : Option Control) :
    List (String × List (String × WorldSyncData)) →
    Except String (List Conflict)
  | [] => .ok []
  | (pc_id, ws) :: rest =>
    if pc_id = selfId then parallel_conflicts selfId world local_control rest
    else
      match (akey? ws world).bind (·.control) with
      | none => parallel_conflicts selfId world local_control rest
      | some pcc =>
        match local_control with
        | none => .error "UnboundLocalError"
        | some lc =>
          match parallel_conflicts selfId world local_control rest with
          | .error e => .error e
          | .ok cs =>
            if pcc.base_commit = lc.base_commit ∧ pcc.commit_id ≠ lc.commit_id ∧
                pcc.timestamp ≠ lc.timestamp then
              .ok (parallelConflict pc_id pcc :: cs)
            else .ok cs

/-- `HostManager.check_world_status` (src/host_manager.py lines 42-106).
`localSaves` is the listing of the calling machine's Minecraft saves folder. -/
def check_world_status (sh : SharedState) (localSaves : List (String × FsTree))
    (selfId world : String) : Except String Status :=
  let exists_locally := hasKey localSaves world
  match akey? sh.mundos world with
  | none =>
    .ok { exists_locally
          exists_in_sync := false
          has_latest_version := false
          latest_version_info := none
          local_version_info := none
          conflicts := [] }
  | some latest_info =>
    let local_control := control_of sh selfId world
    let hb : Bool × List Conflict :=
      match local_control with
      | some lc =>
        if lc.timestamp = latest_info.timestamp then (true, [])
        else if lc.base_commit ≠ latest_info.commit_id then
          (false,
           [{ type := "base_commit_mismatch"
              message :=
                "La versión local está basada en un commit diferente al de la última versión"
              pc_id := none
              pc_info := none }])
        else (false, [])
      | none => (false, [])
    match parallel_conflicts selfId world local_control sh.machines with
    | .error e => .error e
    | .ok pcs =>
      .ok { exists_locally
            exists_in_sync := true
            has_latest_version := hb.1
            latest_version_info := some latest_info
            local_version_info := local_control
            conflicts := hb.2 ++ pcs }

/-- Result of a sync operation: the returned `(bool, message)` pair together
with the shared folder and the caller's local saves listing after the call. -/
structure OpResult where
  ok : Bool
  message : String
  shared : SharedState
  saves : List (String × FsTree)

/-- The timestamp sanitation of the backup name (src/host_manager.py line
130): colons become dashes, spaces become underscores. -/
def sanitizeTs (ts : String) : String :=
  (ts.replace ":" "-").replace " " "_"

/-- The payload the pull would copy: the `minecraft_saves_data` of the machine
named by the index's Pointer Entry, when the entry and the directory exist. -/
def pull_source (sh : SharedState) (world : String) : Option FsTree :=
  (akey? sh.mundos world).bind fun e =>
    match e.pc_id with
    | some p => saves_of sh p world
    | none => none

/-- A Pointer Entry, when present, names its publishing machine.  Every entry
the program itself writes satisfies this; an entry without `pc_id` would make
`download_world` raise a `TypeError` when joining the path at line 121. -/
def wf_index (mundos : List (String × PointerEntry)) (world : String) : Bool :=
  match akey? mundos world with
  | some e => e.pc_id.isSome
  | none => true

/-- `HostManager.download_world` (src/host_manager.py lines 108-155).  `now`
is the value the two `get_timestamp()` calls return during this operation.
The `.error` case models the `TypeError` raised when the Pointer Entry has no
`pc_id`; every other outcome is a returned `(bool, message)` pair. -/
def download_world (sh : SharedState) (localSaves : List (String × FsTree))
    (selfId world now : String) : Except String OpResult :=
  match akey? sh.mundos world with
  | none =>
    .ok { ok := false
          message := "El mundo no existe en el sistema de sincronización"
          shared := sh, saves := localSaves }
  | some latest_info =>
    match latest_info.pc_id with
    | none => .error "TypeError"
    | some latest_pc_id =>
      match saves_of sh latest_pc_id world with
      | none =>
        .ok { ok := false
              message := "No se encontraron los datos del mundo en world_sync/"
                ++ latest_pc_id ++ "/" ++ world ++ "/minecraft_saves_data"
              shared := sh, saves := localSaves }
      | some source_tree =>
        let saves1 :=
          match akey? localSaves world with
          | some t =>
            upsert localSaves (world ++ "_backup_" ++ sanitizeTs now) t
          | none => localSaves
        let saves2 := upsert saves1 world source_tree
        let ms1 := setWorldData sh.machines selfId world
          fun wd => { wd with saves_data := some source_tree }
        let ctrl : Control :=
          { commit_id := latest_info.commit_id
            base_commit := latest_info.commit_id
            comment := some "Descargado de la última versión"
            timestamp := some now
            original_timestamp := latest_info.timestamp }
        let ms2 := setWorldData ms1 selfId world
          fun wd => { wd with control := some ctrl }
        .ok { ok := true
              message := "Mundo descargado correctamente"
              shared := { sh with machines := ms2 }
              saves := saves2 }

/-- Python's `or` on optional strings: the left value when it is truthy (a
present, non-empty string), the right value otherwise. -/
def pyOr (a b : Option String) : Option String :=
  match a with
  | none => b
  | some s => if s = "" then b else some s

/-- The base-commit computation of `upload_world` (src/host_manager.py lines
171-180): start from the Global Index's `commit_id` for the world, then let a
truthy `commit_id` of the caller's own `control.json` override it. -/
def upload_base (sh : SharedState) (selfId world : String) : Option String :=
  let base0 := (akey? sh.mundos world).bind (·.commit_id)
  match control_of sh selfId world with
  | some lc => pyOr lc.commit_id base0
  | none => base0

/-- `HostManager.upload_world` (src/host_manager.py lines 157-213).
`new_commit_id` stands for the freshly generated `uuid4().hex[:12]` and `now`
for `get_timestamp()`. -/
def upload_world (sh : SharedState) (localSaves : List (String × FsTree))
    (selfId world comment now new_commit_id : String) : OpResult :=
  match akey? localSaves world with
  | none =>
    { ok := false, message := "El mundo no existe localmente"
      shared := sh, saves := localSaves }
  | some local_tree =>
    let base_commit := upload_base sh selfId world
    let eff_comment := if comment = "" then "Actualización" else comment
    let control_info : Control :=
      { commit_id := some new_commit_id
        base_commit := base_commit
        comment := some eff_comment
        timestamp := some now
        original_timestamp := none }
    let ms1 := setWorldData sh.machines selfId world
      fun wd => { wd with saves_data := some local_tree }
    let ms2 := setWorldData ms1 selfId world
      fun wd => { wd with control := some control_info }
    let mundos2 := upsert sh.mundos world
      { commit_id := some new_commit_id
        pc_id := some selfId
        timestamp := some now
        comment := some eff_comment }
    { ok := true, message := "Mundo subido correctamente"
      shared := { mundos := mundos2, machines := ms2 }
      saves := localSaves }

/-- The annotated comment `resolve_conflict` writes into the index. -/
def resolveComment (chosen_pc_id : String) : String :=
  "Conflicto resuelto: se eligió la versión de " ++ chosen_pc_id

/-- The Pointer Entry `resolve_conflict` writes (src/host_manager.py lines
233-238): the chosen machine's commit and timestamp under its id. -/
def chosenEntry (cc : Control) (chosen_pc_id : String) : PointerEntry :=
  { commit_id := cc.commit_id
    pc_id := some chosen_pc_id
    timestamp := cc.timestamp
    comment := some (resolveComment chosen_pc_id) }

/-- `HostManager.resolve_conflict` (src/host_manager.py lines 215-245).  The
index is rewritten to the chosen machine's commit before the induced
`download_world` runs for the caller. -/
def resolve_conflict (sh : SharedState) (localSaves : List (String × FsTree))
    (selfId world chosen_pc_id now : String) : Except String OpResult :=
  match akey? sh.mundos world with
  | none =>
    .ok { ok := false
          message := "El mundo no existe en el sistema de sincronización"
          shared := sh, saves := localSaves }
  | some _ =>
    if hasKey sh.machines chosen_pc_id then
      match control_of sh chosen_pc_id world with
      | none =>
        .ok { ok := false
              message := "No se encontró control.json para el mundo en la computadora "
                ++ chosen_pc_id
              shared := sh, saves := localSaves }
      | some cc =>
        let sh2 : SharedState :=
          { sh with mundos := upsert sh.mundos world (chosenEntry cc chosen_pc_id) }
        if chosen_pc_id ≠ selfId then
          download_world sh2 localSaves selfId world now
        else
          .ok { ok := true
                message := resolveComment chosen_pc_id
                shared := sh2, saves := localSaves }
    else
      .ok { ok := false
            message := "No se encontró la computadora " ++ chosen_pc_id
            shared := sh, saves := localSaves }

/-- Shared folder for the C1 scenario: world `w` published by machine `M2`
with an existing payload. -/
def c1State : SharedState :=
  { mundos := [("w", { commit_id := some "abc123", pc_id := some "M2",
                       timestamp := some "2024-01-01 10:00:00",
                       comment := some "v1" })]
    machines := [("M2", [("w", { control := none,
                                 saves_data := some (.dir []) })])] }

/-- Shared folder for the C2 scenario of the spec: world `Skyblock` indexed
under machine `M2`, which also holds a Local Commit Record for it, while the
calling machine `M1` has none. -/
def c2State : SharedState :=
  { mundos := [("Skyblock", { commit_id := some "abc123", pc_id := some "M2",
                              timestamp := some "2024-01-01 10:00:00",
                              comment := none })]
    machines := [("M1", []),
                 ("M2", [("Skyblock",
                   { control := some
                       { commit_id := some "abc123", base_commit := none,
                         comment := none,
                         timestamp := some "2024-01-01 10:00:00",
                         original_timestamp := none }
                     saves_data := some (.dir []) })])] }

/-- Shared folder for the C4 counterexample: caller `M1` holds a
`control.json` whose `commit_id` is the empty string (non-null but falsy),
while the index carries commit `idx1`. -/
def c4State : SharedState :=
  { mundos := [("w", { commit_id := some "idx1", pc_id := some "M2",
                       timestamp := some "t0", comment := none })]
    machines := [("M1", [("w",
      { control := some
          { commit_id := some "", base_commit := some "old",
            comment := none, timestamp := some "t1",
            original_timestamp := none }
        saves_data := none })])] }

/-- Caller record for the C3 witness: commit `c1` on base `b0` at `t1`. -/
def c3SelfCtrl : Control :=
  { commit_id := some "c1", base_commit := some "b0", comment := none,
    timestamp := some "t1", original_timestamp := none }

/-- Peer record for the C3 witness: commit `c2` on the same base `b0` at a
different time `t2`. -/
def c3PeerCtrl : Control :=
  { commit_id := some "c2", base_commit := some "b0", comment := none,
    timestamp := some "t2", original_timestamp := none }

/-- Shared folder for the C3 witness: machines `M1` and `M2` both hold
records for world `w` with equal base commit, different commit ids and
different timestamps. -/
def c3State : SharedState :=
  { mundos := [("w", { commit_id := some "c2", pc_id := some "M2",
                       timestamp := some "t2", comment := none })]
    machines := [("M1", [("w", { control := some c3SelfCtrl,
                                 saves_data := none })]),
                 ("M2", [("w", { control := some c3PeerCtrl,
                                 saves_data := none })])] }

/-- Record of the chosen machine `M2` for the C6 and C10 witnesses. -/
def c6ChosenCtrl : Control :=
  { commit_id := some "cc1", base_commit := some "b0", comment := none,
    timestamp := some "t9", original_timestamp := none }

/-- Shared folder for the C6 witness: world `w` indexed, machine `M2` listed
with a readable `control.json` for it. -/
def c6State : SharedState :=
  { mundos := [("w", { commit_id := some "old", pc_id := some "M1",
                       timestamp := some "t0", comment := none })]
    machines := [("M2", [("w", { control := some c6ChosenCtrl,
                                 saves_data := none })])] }

/-- Shared folder for the C7 witness: world `w` indexed under `M2`, but the
publisher's `minecraft_saves_data` payload directory is missing. -/
def c7State : SharedState :=
  { mundos := [("w", { commit_id := some "abc", pc_id := some "M2",
                       timestamp := some "t0", comment := none })]
    machines := [("M2", [("w", { control := none, saves_data := none })])] }

theorem akey?_upsert_self {α : Type} (l : List (String × α)) (k : String)
    (v : α) : akey? (upsert l k v) k = some v := by
  induction l with
  | nil => simp [upsert, akey?]
  | cons hd rest ih =>
    obtain ⟨k', w⟩ := hd
    by_cases h : k' = k <;> simp [upsert, akey?, h, ih]

theorem akey?_upsert_ne {α : Type} (l : List (String × α)) {k k' : String}
    (v : α) (h : k' ≠ k) : akey? (upsert l k v) k' = akey? l k' := by
  have hkk : ¬(k = k') := fun e => h e.symm
  induction l with
  | nil => simp [upsert, akey?, hkk]
  | cons hd rest ih =>
    obtain ⟨k0, w⟩ := hd
    by_cases h0 : k0 = k
    · subst h0
      simp [upsert, akey?, hkk]
    · simp [upsert, akey?, h0, ih]

theorem hasKey_of_akey? {α : Type} {l : List (String × α)} {k : String}
    {v : α} (h : akey? l k = some v) : hasKey l k = true := by
  simp [hasKey, h]

theorem akey?_eq_none_of_hasKey {α : Type} {l : List (String × α)}
    {k : String} (h : hasKey l k = false) : akey? l k = none := by
  cases hq : akey? l k with
  | none => rfl
  | some v => rw [hasKey_of_akey? hq] at h; cases h

theorem mem_of_akey? {α : Type} {l : List (String × α)} {k : String} {v : α}
    (h : akey? l k = some v) : (k, v) ∈ l := by
  induction l with
  | nil => cases h
  | cons hd rest ih =>
    obtain ⟨k0, w⟩ := hd
    by_cases h0 : k0 = k
    · subst h0
      simp [akey?] at h
      simp [h]
    · simp [akey?, h0] at h
      simp [ih h]

theorem foldl_preserve {α : Type} (f : DiffResult → α → DiffResult) :
    ∀ (l : List α) (acc : DiffResult), (∀ a x, x ∈ l → f a x = a) →
      l.foldl f acc = acc := by
  intro l
  induction l with
  | nil => intro acc _; rfl
  | cons hd rest ih =>
    intro acc h
    have h0 : f acc hd = acc := h acc hd (by simp)
    simp only [List.foldl_cons, h0]
    exact ih acc fun a x hx => h a x (by simp [hx])

theorem sizeOf_snd_lt_of_mem {n : String} {t : FsTree}
    {es : List (String × FsTree)} (h : (n, t) ∈ es) : sizeOf t < sizeOf es := by
  induction es with
  | nil => cases h
  | cons hd rest ih =>
    rcases List.mem_cons.mp h with h0 | h0
    · subst h0
      simp only [List.cons.sizeOf_spec, Prod.mk.sizeOf_spec]
      omega
    · have := ih h0
      simp only [List.cons.sizeOf_spec]
      omega

theorem goCommon_preserve (now : Int) (es2 : List (String × FsTree))
    (relPath : String) :
    ∀ (l : List (String × FsTree)) (acc : DiffResult),
      (∀ n t a, (n, t) ∈ l → commonStep now es2 relPath n t a = a) →
      goCommon now l es2 relPath acc = acc := by
  intro l
  induction l with
  | nil => intro acc _; simp [goCommon]
  | cons hd rest ih =>
    intro acc h
    obtain ⟨n, t⟩ := hd
    rw [goCommon]
    rw [h n t acc (by simp)]
    exact ih acc fun n' t' a hm => h n' t' a (by simp [hm])

theorem wfEntries_cons {n : String} {t : FsTree}
    {rest : List (String × FsTree)} :
    wfEntries ((n, t) :: rest) = true ↔
      hasKey rest n = false ∧ wfTree t = true ∧ wfEntries rest = true := by
  simp [wfEntries, Bool.and_assoc]

theorem wfTree_dir {es : List (String × FsTree)} :
    wfTree (.dir es) = wfEntries es := by
  simp [wfTree]

theorem akey?_of_mem_wf {es : List (String × FsTree)} {n : String}
    {t : FsTree} (hwf : wfEntries es = true) (h : (n, t) ∈ es) :
    akey? es n = some t := by
  induction es with
  | nil => cases h
  | cons hd rest ih =>
    obtain ⟨k, u⟩ := hd
    obtain ⟨hk, hu, hrest⟩ := wfEntries_cons.mp hwf
    rcases List.mem_cons.mp h with h0 | h0
    · obtain ⟨h1, h2⟩ := Prod.mk.injEq .. ▸ h0
      subst h1; subst h2
      simp [akey?]
    · by_cases he : k = n
      · subst he
        have := hasKey_of_akey? (ih hrest h0)
        rw [this] at hk
        cases hk
      · simp [akey?, he, ih hrest h0]

theorem wfTree_of_mem_wf {es : List (String × FsTree)} {n : String}
    {t : FsTree} (hwf : wfEntries es = true) (h : (n, t) ∈ es) :
    wfTree t = true := by
  induction es with
  | nil => cases h
  | cons hd rest ih =>
    obtain ⟨k, u⟩ := hd
    obtain ⟨_, hu, hrest⟩ := wfEntries_cons.mp hwf
    rcases List.mem_cons.mp h with h0 | h0
    · obtain ⟨h1, h2⟩ := Prod.mk.injEq .. ▸ h0
      subst h2
      exact hu
    · exact ih hrest h0

theorem akey?_strip_of_none {es : List (String × FsTree)} {n : String}
    (h : akey? es n = none) : akey? (stripEntries es) n = none := by
  induction es with
  | nil => simp [stripEntries, akey?]
  | cons hd rest ih =>
    obtain ⟨k, u⟩ := hd
    by_cases hk : k = n
    · subst hk
      simp [akey?] at h
    · simp only [akey?, hk, if_false] at h
      cases u with
      | file f =>
        by_cases hi : should_ignore k <;>
          simp [stripEntries, hi, akey?, hk, ih h]
      | dir c => simp [stripEntries, akey?, hk, ih h]

theorem akey?_strip_of_some {es : List (String × FsTree)} {n : String}
    {t : FsTree} (hwf : wfEntries es = true) (h : akey? es n = some t) :
    akey? (stripEntries es) n = stripLookup n t := by
  induction es with
  | nil => cases h
  | cons hd rest ih =>
    obtain ⟨k, u⟩ := hd
    obtain ⟨hk, hu, hrest⟩ := wfEntries_cons.mp hwf
    by_cases he : k = n
    · subst he
      have hu_t : u = t := by simpa [akey?] using h
      subst hu_t
      cases u with
      | file f =>
        by_cases hi : should_ignore k
        · simp only [stripEntries, hi, if_true]
          rw [akey?_strip_of_none (akey?_eq_none_of_hasKey hk)]
          simp [stripLookup, hi]
        · simp [stripEntries, hi, akey?, stripLookup]
      | dir c => simp [stripEntries, stripTree, akey?, stripLookup]
    · have h' : akey? rest n = some t := by simpa [akey?, he] using h
      cases u with
      | file f =>
        by_cases hi : should_ignore k <;>
          simp [stripEntries, hi, akey?, he, ih hrest h']
      | dir c => simp [stripEntries, stripTree, akey?, he, ih hrest h']

theorem agreeTree_dir {a b : List (String × FsTree)} :
    agreeTree (.dir a) (.dir b) = agreeDirs a b := by
  simp [agreeTree, agreeDirs]

theorem agree_mem {es1 es2 : List (String × FsTree)} {n : String} {t1 : FsTree}
    (h : agreeEntries es1 es2 = true) (hm : (n, t1) ∈ es1) :
    ∃ t2, akey? es2 n = some t2 ∧ agreeTree t1 t2 = true := by
  induction es1 with
  | nil => cases hm
  | cons hd rest ih =>
    obtain ⟨k, u⟩ := hd
    rw [agreeEntries] at h
    obtain ⟨h1, h2⟩ := Bool.and_eq_true_iff.mp h
    rcases List.mem_cons.mp hm with h0 | h0
    · obtain ⟨hek, het⟩ := Prod.mk.injEq .. ▸ h0
      subst hek; subst het
      cases hq : akey? es2 n with
      | none => rw [hq] at h1; cases h1
      | some t2 => rw [hq] at h1; exact ⟨t2, rfl, h1⟩
    · exact ih h2 h0

theorem compareDirs_strip_acc :
    ∀ (N : Nat) (es1 es2 : List (String × FsTree)) (now : Int)
      (relPath : String) (acc : DiffResult), sizeOf es1 ≤ N →
      wfEntries es1 = true → wfEntries es2 = true →
      stripEntries es1 = stripEntries es2 →
      compareDirs now es1 es2 relPath acc = acc := by
  intro N
  induction N with
  | zero =>
    intro es1 _ _ _ _ hsz _ _ _
    exfalso
    cases es1 <;> simp_arith at hsz
  | succ N ih =>
    intro es1 es2 now relPath acc hsz h1 h2 hstrip
    have honly1 : ∀ (a : DiffResult) (x : String × FsTree),
        x ∈ (es1.filter fun e => !hasKey es2 e.1) →
        only1Step relPath a x = a := by
      intro a x hx
      obtain ⟨hx1, hx2⟩ := List.mem_filter.mp hx
      obtain ⟨nn, tt⟩ := x
      simp only [Bool.not_eq_true'] at hx2
      have hk1 : akey? es1 nn = some tt := akey?_of_mem_wf h1 hx1
      have hk2 : akey? (stripEntries es2) nn = none :=
        akey?_strip_of_none (akey?_eq_none_of_hasKey hx2)
      have hs1 : akey? (stripEntries es1) nn = stripLookup nn tt :=
        akey?_strip_of_some h1 hk1
      rw [hstrip, hk2] at hs1
      cases tt with
      | file f =>
        by_cases hi : should_ignore nn
        · simp [only1Step, hi]
        · simp [stripLookup, hi] at hs1
      | dir c => simp [stripLookup] at hs1
    have honly2 : ∀ (a : DiffResult) (x : String × FsTree),
        x ∈ (es2.filter fun e => !hasKey es1 e.1) →
        only2Step relPath a x = a := by
      intro a x hx
      obtain ⟨hx1, hx2⟩ := List.mem_filter.mp hx
      obtain ⟨nn, tt⟩ := x
      simp only [Bool.not_eq_true'] at hx2
      have hk1 : akey? es2 nn = some tt := akey?_of_mem_wf h2 hx1
      have hk2 : akey? (stripEntries es1) nn = none :=
        akey?_strip_of_none (akey?_eq_none_of_hasKey hx2)
      have hs1 : akey? (stripEntries es2) nn = stripLookup nn tt :=
        akey?_strip_of_some h2 hk1
      rw [← hstrip, hk2] at hs1
      cases tt with
      | file f =>
        by_cases hi : should_ignore nn
        · simp [only2Step, hi]
        · simp [stripLookup, hi] at hs1
      | dir c => simp [stripLookup] at hs1
    have hcommon : ∀ (n : String) (t : FsTree) (a : DiffResult), (n, t) ∈ es1 →
        commonStep now es2 relPath n t a = a := by
      intro n t a hm
      have hk1 : akey? es1 n = some t := akey?_of_mem_wf h1 hm
      have hs1 : akey? (stripEntries es1) n = stripLookup n t :=
        akey?_strip_of_some h1 hk1
      cases t with
      | file f =>
        by_cases hi : should_ignore n
        · cases hq : akey? es2 n with
          | none => simp [commonStep, hq]
          | some t2 =>
            cases t2 with
            | file f2 => simp [commonStep, hq, hi]
            | dir c2 => simp [commonStep, hq]
        · rw [hstrip] at hs1
          cases hq : akey? es2 n with
          | none => rw [akey?_strip_of_none hq] at hs1; simp [stripLookup, hi] at hs1
          | some t2 =>
            rw [akey?_strip_of_some h2 hq] at hs1
            cases t2 with
            | file f2 =>
              have hf : f2 = f := by simp [stripLookup, hi] at hs1; exact hs1
              subst hf
              simp [commonStep, hq, hi]
            | dir c2 => simp [stripLookup, hi] at hs1
      | dir c =>
        rw [hstrip] at hs1
        cases hq : akey? es2 n with
        | none => rw [akey?_strip_of_none hq] at hs1; simp [stripLookup] at hs1
        | some t2 =>
          rw [akey?_strip_of_some h2 hq] at hs1
          cases t2 with
          | file f2 =>
            by_cases hi : should_ignore n <;> simp [stripLookup, hi] at hs1
          | dir c2 =>
            have hcc : stripEntries c2 = stripEntries c := by
              simp [stripLookup] at hs1; exact hs1
            have hwc : wfEntries c = true := by
              have := wfTree_of_mem_wf h1 hm
              rwa [wfTree_dir] at this
            have hwc2 : wfEntries c2 = true := by
              have := wfTree_of_mem_wf h2 (mem_of_akey? hq)
              rwa [wfTree_dir] at this
            have hszc : sizeOf c ≤ N := by
              have hlt : sizeOf (FsTree.dir c) < sizeOf es1 :=
                sizeOf_snd_lt_of_mem hm
              have : sizeOf c < sizeOf (FsTree.dir c) := by
                simp [FsTree.dir.sizeOf_spec]
              omega
            have hrec := ih c c2 now (joinPath relPath n) a hszc hwc hwc2 hcc.symm
            simp [commonStep, hq, hrec]
    rw [compareDirs]
    rw [foldl_preserve _ _ _ honly1, foldl_preserve _ _ _ honly2]
    exact goCommon_preserve now es2 relPath es1 acc hcommon

theorem compareDirs_agree_acc :
    ∀ (N : Nat) (es1 es2 : List (String × FsTree)) (now : Int)
      (relPath : String) (acc : DiffResult), sizeOf es1 ≤ N →
      agreeDirs es1 es2 = true →
      compareDirs now es1 es2 relPath acc = acc := by
  intro N
  induction N with
  | zero =>
    intro es1 _ _ _ _ hsz _
    exfalso
    cases es1 <;> simp_arith at hsz
  | succ N ih =>
    intro es1 es2 now relPath acc hsz hag
    obtain ⟨hent, hall⟩ := Bool.and_eq_true_iff.mp hag
    have honly1 : ∀ (a : DiffResult) (x : String × FsTree),
        x ∈ (es1.filter fun e => !hasKey es2 e.1) →
        only1Step relPath a x = a := by
      intro a x hx
      obtain ⟨hx1, hx2⟩ := List.mem_filter.mp hx
      obtain ⟨nn, tt⟩ := x
      simp only [Bool.not_eq_true'] at hx2
      obtain ⟨t2, ht2, _⟩ := agree_mem hent hx1
      rw [hasKey_of_akey? ht2] at hx2
      cases hx2
    have honly2 : ∀ (a : DiffResult) (x : String × FsTree),
        x ∈ (es2.filter fun e => !hasKey es1 e.1) →
        only2Step relPath a x = a := by
      intro a x hx
      obtain ⟨hx1, hx2⟩ := List.mem_filter.mp hx
      simp only [Bool.not_eq_true'] at hx2
      have := List.all_eq_true.mp hall x hx1
      simp only [hx2] at this
      cases this
    have hcommon : ∀ (n : String) (t : FsTree) (a : DiffResult), (n, t) ∈ es1 →
        commonStep now es2 relPath n t a = a := by
      intro n t a hm
      obtain ⟨t2, ht2, hat⟩ := agree_mem hent hm
      cases t with
      | file f =>
        cases t2 with
        | file f2 =>
          have hcf : f.content = f2.content := by
            simpa [agreeTree] using hat
          by_cases hi : should_ignore n <;> simp [commonStep, ht2, hi, hcf]
        | dir c2 => simp [commonStep, ht2]
      | dir c =>
        cases t2 with
        | file f2 => simp [commonStep, ht2]
        | dir c2 =>
          rw [agreeTree_dir] at hat
          have hszc : sizeOf c ≤ N := by
            have hlt : sizeOf (FsTree.dir c) < sizeOf es1 :=
              sizeOf_snd_lt_of_mem hm
            have h2 : sizeOf c < sizeOf (FsTree.dir c) := by
              simp [FsTree.dir.sizeOf_spec]
            omega
          have hrec := ih c c2 now (joinPath relPath n) a hszc hat
          simp [commonStep, ht2, hrec]
    rw [compareDirs]
    rw [foldl_preserve _ _ _ honly1, foldl_preserve _ _ _ honly2]
    exact goCommon_preserve now es2 relPath es1 acc hcommon

/-- C8: filenames on the fixed ignore list (session.lock, .DS_Store,
Thumbs.db, and names matching the pattern star-dot-tmp) never affect the
output of `compare_directories`: for any two well-formed directory trees that
differ only in ignored filenames (their ignored-file-stripped forms
coincide), the result reports `identical = true`, every difference bucket
empty, and `has_important_changes = false`. -/
theorem c8_ignore_list_never_affects_compare
    (es1 es2 : List (String × FsTree)) (now : Int)
    (h1 : wfEntries es1 = true) (h2 : wfEntries es2 = true)
    (h : stripEntries es1 = stripEntries es2) :
    (compare_directories es1 es2 now).identical = true ∧
    (compare_directories es1 es2 now).files_only_in_dir1 = [] ∧
    (compare_directories es1 es2 now).files_only_in_dir2 = [] ∧
    (compare_directories es1 es2 now).modified_files = [] ∧
    (compare_directories es1 es2 now).dirs_only_in_dir1 = [] ∧
    (compare_directories es1 es2 now).dirs_only_in_dir2 = [] ∧
    (compare_directories es1 es2 now).has_important_changes = false := by
  have hmain := compareDirs_strip_acc (sizeOf es1) es1 es2 now "" emptyDiff
    (Nat.le_refl _) h1 h2 h
  rw [compare_directories, hmain]
  simp [emptyDiff]

/-- C8 witness: a listing containing `session.lock` against the same listing
without it compares as identical with no important changes. -/
theorem c8_ignore_list_never_affects_compare_witness :
    (wfEntries [("session.lock", FsTree.file ⟨"lk", 0⟩),
                ("a", FsTree.file ⟨"data", 0⟩)] = true) ∧
    (wfEntries [("a", FsTree.file ⟨"data", 0⟩)] = true) ∧
    stripEntries [("session.lock", FsTree.file ⟨"lk", 0⟩),
                  ("a", FsTree.file ⟨"data", 0⟩)] =
      stripEntries [("a", FsTree.file ⟨"data", 0⟩)] ∧
    (compare_directories [("session.lock", FsTree.file ⟨"lk", 0⟩),
                          ("a", FsTree.file ⟨"data", 0⟩)]
        [("a", FsTree.file ⟨"data", 0⟩)] 100000).identical = true ∧
    (compare_directories [("session.lock", FsTree.file ⟨"lk", 0⟩),
                          ("a", FsTree.file ⟨"data", 0⟩)]
        [("a", FsTree.file ⟨"data", 0⟩)] 100000).has_important_changes
      = false := by
  refine ⟨by rfl, by rfl, by rfl, ?_, ?_⟩
  · exact (c8_ignore_list_never_affects_compare _ _ 100000
      (by rfl) (by rfl) (by rfl)).1
  · exact (c8_ignore_list_never_affects_compare _ _ 100000
      (by rfl) (by rfl) (by rfl)).2.2.2.2.2.2

/-- C9: an entry that is a file on one side and a directory of the same name
on the other lands in no bucket and is not recursed into; two trees that
differ only in such mixed-kind entries compare as `identical = true` with
`has_important_changes = false`. -/
theorem c9_mixed_kind_entries_unclassified
    (es1 es2 : List (String × FsTree)) (now : Int)
    (h : agreeDirs es1 es2 = true) :
    (compare_directories es1 es2 now).identical = true ∧
    (compare_directories es1 es2 now).files_only_in_dir1 = [] ∧
    (compare_directories es1 es2 now).files_only_in_dir2 = [] ∧
    (compare_directories es1 es2 now).modified_files = [] ∧
    (compare_directories es1 es2 now).dirs_only_in_dir1 = [] ∧
    (compare_directories es1 es2 now).dirs_only_in_dir2 = [] ∧
    (compare_directories es1 es2 now).has_important_changes = false := by
  have hmain := compareDirs_agree_acc (sizeOf es1) es1 es2 now "" emptyDiff
    (Nat.le_refl _) h
  rw [compare_directories, hmain]
  simp [emptyDiff]

/-- C9 witness: a file named `x` against a directory named `x` (holding a
file) compares as identical with no important changes. -/
theorem c9_mixed_kind_entries_unclassified_witness :
    agreeDirs [("x", FsTree.file ⟨"c", 0⟩)]
      [("x", FsTree.dir [("y", FsTree.file ⟨"d", 0⟩)])] = true ∧
    (compare_directories [("x", FsTree.file ⟨"c", 0⟩)]
        [("x", FsTree.dir [("y", FsTree.file ⟨"d", 0⟩)])] 100000).identical
      = true ∧
    (compare_directories [("x", FsTree.file ⟨"c", 0⟩)]
        [("x", FsTree.dir [("y", FsTree.file ⟨"d", 0⟩)])]
        100000).has_important_changes = false := by
  refine ⟨by rfl, ?_, ?_⟩
  · exact (c9_mixed_kind_entries_unclassified _ _ 100000 (by rfl)).1
  · exact (c9_mixed_kind_entries_unclassified _ _ 100000 (by rfl)).2.2.2.2.2.2

theorem control_of_eq (sh : SharedState) (pc w : String) :
    control_of sh pc w = (worldData sh.machines pc w).control := by
  unfold control_of worldData machineWorlds
  cases hq : akey? sh.machines pc with
  | none => simp [akey?, emptyWD]
  | some ws =>
    cases hw : akey? ws w with
    | none => simp [hw, emptyWD]
    | some wd => simp [hw]

theorem saves_of_eq (sh : SharedState) (pc w : String) :
    saves_of sh pc w = (worldData sh.machines pc w).saves_data := by
  unfold saves_of worldData machineWorlds
  cases hq : akey? sh.machines pc with
  | none => simp [akey?, emptyWD]
  | some ws =>
    cases hw : akey? ws w with
    | none => simp [hw, emptyWD]
    | some wd => simp [hw]

theorem worldData_set_self (ms : List (String × List (String × WorldSyncData)))
    (pc w : String) (f : WorldSyncData → WorldSyncData) :
    worldData (setWorldData ms pc w f) pc w = f (worldData ms pc w) := by
  unfold setWorldData
  unfold worldData machineWorlds
  rw [akey?_upsert_self]
  simp [akey?_upsert_self]

theorem worldData_set_ne_pc (ms : List (String × List (String × WorldSyncData)))
    {pc pc' : String} (w w' : String) (f : WorldSyncData → WorldSyncData)
    (h : pc' ≠ pc) :
    worldData (setWorldData ms pc w f) pc' w' = worldData ms pc' w' := by
  unfold setWorldData worldData machineWorlds
  rw [akey?_upsert_ne _ _ h]

theorem parallel_conflicts_ok (selfId world : String) (lc : Control) :
    ∀ ms, ∃ cs, parallel_conflicts selfId world (some lc) ms = .ok cs := by
  intro ms
  induction ms with
  | nil => exact ⟨[], rfl⟩
  | cons hd rest ih =>
    obtain ⟨pc, ws⟩ := hd
    obtain ⟨cs, hcs⟩ := ih
    by_cases hp : pc = selfId
    · exact ⟨cs, by simp [parallel_conflicts, hp, hcs]⟩
    · cases hq : (akey? ws world).bind (·.control) with
      | none => exact ⟨cs, by simp [parallel_conflicts, hp, hq, hcs]⟩
      | some pcc =>
        by_cases hcond : pcc.base_commit = lc.base_commit ∧
            pcc.commit_id ≠ lc.commit_id ∧ pcc.timestamp ≠ lc.timestamp
        · exact ⟨parallelConflict pc pcc :: cs,
            by simp [parallel_conflicts, hp, hq, hcs, hcond]⟩
        · exact ⟨cs, by simp [parallel_conflicts, hp, hq, hcs, hcond]⟩

theorem parallel_conflicts_mem (selfId world : String) (lc pcc : Control)
    (peer : String) (hne : peer ≠ selfId)
    (hb : pcc.base_commit = lc.base_commit)
    (hc : pcc.commit_id ≠ lc.commit_id)
    (ht : pcc.timestamp ≠ lc.timestamp) :
    ∀ (ms : List (String × List (String × WorldSyncData)))
      (ws : List (String × WorldSyncData)) (cs : List Conflict),
      akey? ms peer = some ws →
      (akey? ws world).bind (·.control) = some pcc →
      parallel_conflicts selfId world (some lc) ms = .ok cs →
      parallelConflict peer pcc ∈ cs := by
  intro ms
  induction ms with
  | nil => intro ws cs hws _ _; cases hws
  | cons hd rest ih =>
    intro ws cs hws hctrl hrun
    obtain ⟨pc, ws0⟩ := hd
    by_cases hp : pc = peer
    · subst hp
      have hws0 : ws0 = ws := by simpa [akey?] using hws
      subst hws0
      rw [parallel_conflicts] at hrun
      rw [if_neg hne] at hrun
      rw [hctrl] at hrun
      cases hrec : parallel_conflicts selfId world (some lc) rest with
      | error e => rw [hrec] at hrun; cases hrun
      | ok cs0 =>
        rw [hrec] at hrun
        simp only [hb, hc, ht] at hrun
        have hlist : parallelConflict pc pcc :: cs0 = cs := by
          simp [hb, hc, ht] at hrun
          exact hrun
        rw [← hlist]
        simp
    · have hws' : akey? rest peer = some ws := by
        simpa [akey?, hp] using hws
      rw [parallel_conflicts] at hrun
      by_cases hself : pc = selfId
      · rw [if_pos hself] at hrun
        exact ih ws cs hws' hctrl hrun
      · rw [if_neg hself] at hrun
        cases hq : (akey? ws0 world).bind (·.control) with
        | none =>
          rw [hq] at hrun
          exact ih ws cs hws' hctrl hrun
        | some pcc0 =>
          rw [hq] at hrun
          cases hrec : parallel_conflicts selfId world (some lc) rest with
          | error e => rw [hrec] at hrun; cases hrun
          | ok cs0 =>
            rw [hrec] at hrun
            have hmem0 := ih ws cs0 hws' hctrl hrec
            by_cases hcond : pcc0.base_commit = lc.base_commit ∧
                pcc0.commit_id ≠ lc.commit_id ∧ pcc0.timestamp ≠ lc.timestamp
            · have hlist : parallelConflict pc pcc0 :: cs0 = cs := by
                simp [hcond] at hrun
                exact hrun
              rw [← hlist]
              simp [hmem0]
            · have hlist : cs0 = cs := by
                simp [hcond] at hrun
                exact hrun
              rw [← hlist]
              exact hmem0

/-- C1: the claim states that Pull followed immediately by checkStatus on the
same machine yields `has_latest_version = true`.  The code falsifies it: the
pulled record's fresh `timestamp` (not its `original_timestamp`) is compared
against the index timestamp, so on the concrete state `c1State` a successful
pull at a later wall-clock time is followed by a status report with
`has_latest_version = false` (and no conflicts). -/
theorem c1_pull_then_check_reports_not_latest :
    (download_world c1State [] "M1" "w" "2024-01-02 12:00:00").toOption.map
      (fun r => (r.ok,
        (check_world_status r.shared r.saves "M1" "w").toOption.map
          (fun st => (st.exists_in_sync, st.has_latest_version,
            st.conflicts)))) = some (true, some (true, false, [])) := by
  rfl

/-- C2: the claim states that checkStatus on a machine with no Local Commit
Record returns `exists_in_sync = true`, `has_latest_version = false`, empty
conflicts, and does not raise, even when other machines hold records.  The
code falsifies the non-raising part: with no own `control.json`, the name
`local_control` is unbound when the peer loop reaches machine `M2`'s record
(src/host_manager.py line 96), and the call raises `UnboundLocalError`. -/
theorem c2_check_raises_without_own_record :
    check_world_status c2State [] "M1" "Skyblock" =
      .error "UnboundLocalError" := by
  rfl

/-- C3: when two machines hold Local Commit Records for an indexed world with
equal `base_commit` but different `commit_id` and different `timestamp`,
checkStatus from either machine (here the caller, whose own record exists)
returns successfully and its conflicts include a `parallel_commits` entry
naming the other machine and carrying that peer's record. -/
theorem c3_parallel_commits_reported (sh : SharedState)
    (localSaves : List (String × FsTree)) (selfId peer world : String)
    (latest : PointerEntry) (lc pcc : Control)
    (hidx : akey? sh.mundos world = some latest)
    (hself : control_of sh selfId world = some lc)
    (hpeer : control_of sh peer world = some pcc)
    (hne : peer ≠ selfId)
    (hb : pcc.base_commit = lc.base_commit)
    (hc : pcc.commit_id ≠ lc.commit_id)
    (ht : pcc.timestamp ≠ lc.timestamp) :
    ∃ st, check_world_status sh localSaves selfId world = .ok st ∧
      parallelConflict peer pcc ∈ st.conflicts := by
  obtain ⟨ws, hws, hwctrl⟩ : ∃ ws, akey? sh.machines peer = some ws ∧
      (akey? ws world).bind (·.control) = some pcc := by
    unfold control_of at hpeer
    cases hq : akey? sh.machines peer with
    | none => rw [hq] at hpeer; cases hpeer
    | some ws => exact ⟨ws, rfl, by rw [hq] at hpeer; exact hpeer⟩
  obtain ⟨cs, hcs⟩ := parallel_conflicts_ok selfId world lc sh.machines
  have hmem := parallel_conflicts_mem selfId world lc pcc peer hne hb hc ht
    sh.machines ws cs hws hwctrl hcs
  unfold check_world_status
  simp only [hidx, hself, hcs]
  exact ⟨_, rfl, by simp [hmem]⟩

/-- C3 witness: on the concrete state `c3State`, checkStatus from `M1`
reports the `parallel_commits` conflict naming `M2`. -/
theorem c3_parallel_commits_reported_witness :
    ∃ st, check_world_status c3State [] "M1" "w" = .ok st ∧
      parallelConflict "M2" c3PeerCtrl ∈ st.conflicts := by
  exact c3_parallel_commits_reported c3State [] "M1" "M2" "w"
    { commit_id := some "c2", pc_id := some "M2", timestamp := some "t2",
      comment := none }
    c3SelfCtrl c3PeerCtrl rfl rfl rfl (by decide)
    (by decide) (by decide) (by decide)

/-- C4 counterexample: the claim says `base_commit` equals the caller's
record's `commit_id` whenever that record exists with a non-null `commit_id`.
On `c4State` the record's `commit_id` is the empty string — non-null — yet
the published `base_commit` is the index's commit `idx1`, not the empty
string, because line 180 of src/host_manager.py uses Python truthiness. -/
theorem c4_upload_base_empty_string_counterexample :
    (control_of c4State "M1" "w").map (fun lc => lc.commit_id)
      = some (some "") ∧
    (control_of (upload_world c4State [("w", FsTree.dir [])]
        "M1" "w" "" "t2" "new1").shared "M1" "w").map
      (fun lc => lc.base_commit) = some (some "idx1") ∧
    some (some "idx1") ≠ (some (some "") : Option (Option String)) := by
  exact ⟨rfl, rfl, by decide⟩

/-- C4 (amended): Publish on a locally-existing world always succeeds and
writes a freshly generated `commit_id`; its `base_commit` equals the caller's
existing Local Commit Record's `commit_id` when that record exists and its
`commit_id` is non-null and non-empty, otherwise the Global Index's current
`commit_id` for the world when present, otherwise null; and it
unconditionally overwrites the world's Pointer Entry with
`{commit_id, pc_id = caller, timestamp, comment}`, never blocking on
conflicts. -/
theorem c4_upload_always_succeeds_with_base
    (sh : SharedState) (localSaves : List (String × FsTree))
    (selfId world comment now newId : String) (t : FsTree)
    (hl : akey? localSaves world = some t) :
    (upload_world sh localSaves selfId world comment now newId).ok = true ∧
    control_of (upload_world sh localSaves selfId world comment
        now newId).shared selfId world =
      some { commit_id := some newId
             base_commit := upload_base sh selfId world
             comment := some (if comment = "" then "Actualización" else comment)
             timestamp := some now
             original_timestamp := none } ∧
    akey? (upload_world sh localSaves selfId world comment
        now newId).shared.mundos world =
      some { commit_id := some newId
             pc_id := some selfId
             timestamp := some now
             comment :=
               some (if comment = "" then "Actualización" else comment) } ∧
    (∀ lc s, control_of sh selfId world = some lc → lc.commit_id = some s →
       s ≠ "" → upload_base sh selfId world = some s) ∧
    ((control_of sh selfId world = none ∨
      (∃ lc, control_of sh selfId world = some lc ∧
        (lc.commit_id = none ∨ lc.commit_id = some ""))) →
       upload_base sh selfId world =
         (akey? sh.mundos world).bind PointerEntry.commit_id) := by
  simp only [upload_world, hl]
  refine ⟨trivial, ?_, ?_, ?_, ?_⟩
  · rw [control_of_eq]
    simp [worldData_set_self]
  · exact akey?_upsert_self _ _ _
  · intro lc s hlc hs hne
    unfold upload_base
    simp only [hlc]
    rw [hs]
    simp [pyOr, hne]
  · intro h
    rcases h with h | ⟨lc, hlc, hcase⟩
    · simp [upload_base, h]
    · rcases hcase with h2 | h2 <;> simp [upload_base, hlc, h2, pyOr]

/-- C4 witness: on `c4State` the publish succeeds and writes the new commit
record and Pointer Entry as the amended claim describes. -/
theorem c4_upload_always_succeeds_with_base_witness :
    (upload_world c4State [("w", FsTree.dir [])] "M1" "w" "" "t2"
      "new1").ok = true ∧
    control_of (upload_world c4State [("w", FsTree.dir [])] "M1" "w" "" "t2"
        "new1").shared "M1" "w" =
      some { commit_id := some "new1"
             base_commit := upload_base c4State "M1" "w"
             comment := some "Actualización"
             timestamp := some "t2"
             original_timestamp := none } ∧
    akey? (upload_world c4State [("w", FsTree.dir [])] "M1" "w" "" "t2"
        "new1").shared.mundos "w" =
      some { commit_id := some "new1"
             pc_id := some "M1"
             timestamp := some "t2"
             comment := some "Actualización" } := by
  have h := c4_upload_always_succeeds_with_base c4State
    [("w", FsTree.dir [])] "M1" "w" "" "t2" "new1" (FsTree.dir []) rfl
  exact ⟨h.1, h.2.1, h.2.2.1⟩

theorem hasKey_machines_of_control {sh : SharedState} {pc w : String}
    {cc : Control} (h : control_of sh pc w = some cc) :
    hasKey sh.machines pc = true := by
  unfold control_of at h
  cases hq : akey? sh.machines pc with
  | none => rw [hq] at h; cases h
  | some ws => exact hasKey_of_akey? hq

/-- C7: Pull fails with a returned `(False, reason)` exactly when the Global
Index has no Pointer Entry for the world or the publishing machine's payload
directory is missing, and in every such failure the local saves, the shared
snapshots and the records are left unchanged.  The hypothesis `wf_index`
restricts to indexes whose entries name a publisher, as every entry the
program writes does. -/
theorem c7_download_fails_iff_source_missing (sh : SharedState)
    (localSaves : List (String × FsTree)) (selfId world now : String)
    (hwf : wf_index sh.mundos world = true) :
    ∃ r, download_world sh localSaves selfId world now = .ok r ∧
      (r.ok = false ↔
        (akey? sh.mundos world = none ∨ pull_source sh world = none)) ∧
      (r.ok = false → r.shared = sh ∧ r.saves = localSaves) := by
  cases hq : akey? sh.mundos world with
  | none =>
    simp only [download_world, hq]
    exact ⟨_, rfl, by simp [pull_source, hq], fun _ => ⟨rfl, rfl⟩⟩
  | some e =>
    obtain ⟨p, hp⟩ : ∃ p, e.pc_id = some p := by
      unfold wf_index at hwf
      rw [hq] at hwf
      exact Option.isSome_iff_exists.mp hwf
    cases hs : saves_of sh p world with
    | none =>
      simp only [download_world, hq, hp, hs]
      exact ⟨_, rfl, by simp [pull_source, hq, hp, hs],
        fun _ => ⟨rfl, rfl⟩⟩
    | some tr =>
      simp only [download_world, hq, hp, hs]
      refine ⟨_, rfl, by simp [pull_source, hq, hp, hs], ?_⟩
      intro h
      exact absurd h (by simp)

/-- C7 witness: on `c7State` the Pointer Entry exists but machine `M2` has no
payload directory, so the pull fails and changes nothing. -/
theorem c7_download_fails_iff_source_missing_witness :
    wf_index c7State.mundos "w" = true ∧
    ∃ r, download_world c7State [] "M1" "w" "t1" = .ok r ∧
      (r.ok = false ↔
        (akey? c7State.mundos "w" = none ∨ pull_source c7State "w" = none)) ∧
      (r.ok = false → r.shared = c7State ∧ r.saves = []) := by
  exact ⟨rfl, c7_download_fails_iff_source_missing c7State [] "M1" "w" "t1" rfl⟩

/-- C6: ResolveConflict called from `M1` on a chosen machine `M2 ≠ M1` with a
readable record first overwrites the Pointer Entry with `M2`'s commit and
timestamp under an annotated comment, then performs exactly a Pull for the
caller on that updated index; when `M2`'s record does not exist the call
fails with a not-found result and leaves the state unchanged. -/
theorem c6_resolve_overwrites_then_pulls (sh : SharedState)
    (localSaves : List (String × FsTree)) (selfId world chosen now : String)
    (e : PointerEntry)
    (hidx : akey? sh.mundos world = some e) (hne : chosen ≠ selfId) :
    (∀ cc, control_of sh chosen world = some cc →
       resolve_conflict sh localSaves selfId world chosen now =
         download_world
           { sh with mundos := upsert sh.mundos world (chosenEntry cc chosen) }
           localSaves selfId world now ∧
       akey? (upsert sh.mundos world (chosenEntry cc chosen)) world =
         some (chosenEntry cc chosen)) ∧
    (control_of sh chosen world = none →
       ∃ msg, resolve_conflict sh localSaves selfId world chosen now =
           .ok { ok := false, message := msg, shared := sh,
                 saves := localSaves } ∧
         (msg = "No se encontró la computadora " ++ chosen ∨
          msg = "No se encontró control.json para el mundo en la computadora "
            ++ chosen)) := by
  constructor
  · intro cc hcc
    refine ⟨?_, akey?_upsert_self _ _ _⟩
    simp only [resolve_conflict, hidx, hasKey_machines_of_control hcc, hcc,
      if_true, hne]
    simp [hne]
  · intro hnone
    by_cases hkey : hasKey sh.machines chosen = true
    · refine ⟨_, ?_, Or.inr rfl⟩
      simp only [resolve_conflict, hidx, hkey, hnone, if_true]
    · have hkf : hasKey sh.machines chosen = false := by
        simpa using hkey
      refine ⟨_, ?_, Or.inl rfl⟩
      simp [resolve_conflict, hidx, hkf]

/-- C6 witness: on `c6State`, resolving in favour of `M2` from `M1` equals a
Pull on the repointed index, whose entry now carries `M2`'s record. -/
theorem c6_resolve_overwrites_then_pulls_witness :
    resolve_conflict c6State [] "M1" "w" "M2" "t5" =
      download_world
        { c6State with
            mundos := upsert c6State.mundos "w"
              (chosenEntry c6ChosenCtrl "M2") } [] "M1" "w" "t5" ∧
    akey? (upsert c6State.mundos "w" (chosenEntry c6ChosenCtrl "M2")) "w" =
      some (chosenEntry c6ChosenCtrl "M2") := by
  exact (c6_resolve_overwrites_then_pulls c6State [] "M1" "w" "M2" "t5"
    { commit_id := some "old", pc_id := some "M1", timestamp := some "t0",
      comment := none } rfl (by decide)).1 c6ChosenCtrl rfl

/-- C10: `resolve_conflict` saves the repointed index before the induced
pull, so when the chosen machine's record exists but its payload directory is
missing, the call returns a failure whose shared state already carries the
chosen machine's commit and timestamp in the Pointer Entry — no rollback. -/
theorem c10_resolve_repoints_index_despite_failed_pull (sh : SharedState)
    (localSaves : List (String × FsTree)) (selfId world chosen now : String)
    (e : PointerEntry) (cc : Control)
    (hidx : akey? sh.mundos world = some e)
    (hcc : control_of sh chosen world = some cc)
    (hne : chosen ≠ selfId)
    (hmiss : saves_of sh chosen world = none) :
    resolve_conflict sh localSaves selfId world chosen now =
      .ok { ok := false
            message := "No se encontraron los datos del mundo en world_sync/"
              ++ chosen ++ "/" ++ world ++ "/minecraft_saves_data"
            shared :=
              { sh with
                  mundos := upsert sh.mundos world (chosenEntry cc chosen) }
            saves := localSaves } ∧
    akey? (upsert sh.mundos world (chosenEntry cc chosen)) world =
      some (chosenEntry cc chosen) := by
  refine ⟨?_, akey?_upsert_self _ _ _⟩
  have hmiss' : (akey? sh.machines chosen).bind
      (fun ws => (akey? ws world).bind (·.saves_data)) = none := hmiss
  simp only [resolve_conflict, hidx, hasKey_machines_of_control hcc, hcc,
    if_true, hne]
  simp only [download_world, akey?_upsert_self, chosenEntry]
  simp [saves_of, hmiss', hne]

/-- C10 witness: `c6State` has the chosen record but no payload; resolving
fails while the index is already repointed to `M2`'s commit. -/
theorem c10_resolve_repoints_index_despite_failed_pull_witness :
    resolve_conflict c6State [] "M1" "w" "M2" "t5" =
      .ok { ok := false
            message := "No se encontraron los datos del mundo en world_sync/"
              ++ "M2" ++ "/" ++ "w" ++ "/minecraft_saves_data"
            shared :=
              { c6State with
                  mundos := upsert c6State.mundos "w"
                    (chosenEntry c6ChosenCtrl "M2") }
            saves := [] } ∧
    akey? (upsert c6State.mundos "w" (chosenEntry c6ChosenCtrl "M2")) "w" =
      some (chosenEntry c6ChosenCtrl "M2") := by
  exact c10_resolve_repoints_index_despite_failed_pull c6State [] "M1" "w"
    "M2" "t5"
    { commit_id := some "old", pc_id := some "M1", timestamp := some "t0",
      comment := none }
    c6ChosenCtrl rfl rfl (by decide) rfl

theorem upload_after_pull (s2 : SharedState) (l2 : List (String × FsTree))
    (M2 world comment now c1 c2 : String) (t : FsTree) (dc : Control)
    (hl : akey? l2 world = some t)
    (hdc : control_of s2 M2 world = some dc)
    (hdcc : dc.commit_id = some c1)
    (hidx : (akey? s2.mundos world).bind (fun en => en.commit_id)
      = some c1) :
    (control_of (upload_world s2 l2 M2 world comment now c2).shared
        M2 world).map (fun lc => lc.base_commit) = some (some c1) ∧
    (akey? (upload_world s2 l2 M2 world comment now c2).shared.mundos
        world).map (fun en => (en.commit_id, en.pc_id))
      = some (some c2, some M2) := by
  have hub : upload_base s2 M2 world = some c1 := by
    unfold upload_base
    simp only [hdc]
    rw [hdcc]
    by_cases h : c1 = "" <;> simp [pyOr, h, hidx]
  constructor
  · simp only [upload_world, hl]
    rw [control_of_eq]
    simp [worldData_set_self, hub]
  · simp only [upload_world, hl]
    rw [akey?_upsert_self]
    simp

/-- C5: Publish from `M1` (producing commit `c1`), then Pull on `M2`, then
Publish from `M2` (producing commit `c2`), with no intermediate changes
elsewhere, leaves `M2`'s Local Commit Record with `base_commit = c1` and the
Global Index Pointer Entry holding `M2`'s new commit with `pc_id = M2`. -/
theorem c5_publish_pull_publish_round_trip (sh : SharedState)
    (m1Saves m2Saves : List (String × FsTree))
    (M1 M2 world c1 c2 comment1 comment2 nowA nowB nowC : String)
    (t1 : FsTree)
    (hne : M1 ≠ M2)
    (h1 : akey? m1Saves world = some t1) :
    ∃ r2, download_world
        (upload_world sh m1Saves M1 world comment1 nowA c1).shared
        m2Saves M2 world nowB = .ok r2 ∧ r2.ok = true ∧
      (control_of (upload_world r2.shared r2.saves M2 world comment2 nowC
          c2).shared M2 world).map (fun lc => lc.base_commit)
        = some (some c1) ∧
      (akey? (upload_world r2.shared r2.saves M2 world comment2 nowC
          c2).shared.mundos world).map (fun en => (en.commit_id, en.pc_id))
        = some (some c2, some M2) := by
  have hidx1 : akey?
      (upload_world sh m1Saves M1 world comment1 nowA c1).shared.mundos
      world = some
      { commit_id := some c1, pc_id := some M1, timestamp := some nowA
        comment :=
          some (if comment1 = "" then "Actualización" else comment1) } := by
    simp only [upload_world, h1]
    exact akey?_upsert_self _ _ _
  have hsav1 : saves_of
      (upload_world sh m1Saves M1 world comment1 nowA c1).shared M1 world
      = some t1 := by
    simp only [upload_world, h1]
    rw [saves_of_eq]
    simp [worldData_set_self]
  simp only [download_world, hidx1, hsav1]
  refine ⟨_, rfl, rfl, ?_⟩
  refine upload_after_pull _ _ M2 world comment2 nowC c1 c2 t1
    { commit_id := some c1, base_commit := some c1
      comment := some "Descargado de la última versión"
      timestamp := some nowB, original_timestamp := some nowA }
    ?_ ?_ rfl ?_
  · exact akey?_upsert_self _ _ _
  · rw [control_of_eq, worldData_set_self, worldData_set_self]
  · simp [hidx1]

/-- C5 witness: starting from an empty shared folder, publish from `M1`,
pull on `M2`, publish from `M2`, with the concrete commits `c1` and `c2`. -/
theorem c5_publish_pull_publish_round_trip_witness :
    ∃ r2, download_world
        (upload_world ⟨[], []⟩ [("w", FsTree.dir [])] "M1" "w" "cm1" "tA"
          "c1").shared [] "M2" "w" "tB" = .ok r2 ∧ r2.ok = true ∧
      (control_of (upload_world r2.shared r2.saves "M2" "w" "cm2" "tC"
          "c2").shared "M2" "w").map (fun lc => lc.base_commit)
        = some (some "c1") ∧
      (akey? (upload_world r2.shared r2.saves "M2" "w" "cm2" "tC"
          "c2").shared.mundos "w").map (fun en => (en.commit_id, en.pc_id))
        = some (some "c2", some "M2") := by
  exact c5_publish_pull_publish_round_trip ⟨[], []⟩ [("w", FsTree.dir [])] []
    "M1" "M2" "w" "c1" "c2" "cm1" "cm2" "tA" "tB" "tC" (FsTree.dir [])
    (by decide) rfl
